import Mathlib

/-!
# Verification of the gastown work-queue dispatch core

A shallow embedding of the queue subsystem of `steveyegge/gastown`
(`internal/cmd/queue.go`, `internal/cmd/queue_enqueue.go`,
`internal/cmd/convoy_queue.go` and the work-queue design document), with
theorems settling the frozen behavioural claims about the Ready-Set
Resolver, the Target-Type Router, the batch enqueue error policy, the
metadata codec, the Dispatch Engine capacity formula, pause/resume
semantics and enqueue idempotency.

External effects (the `bd` issue store, tmux, the filesystem) are
modelled as explicit inputs: each store partition ("bead directory")
carries the result its queries would return, and store-mutating
operations return the updated record.
-/

namespace Gastown

/-- The queue marker label `gt:queued` (design doc, label transitions table). -/
def LabelQueued : String := "gt:queued"

/-- Circuit-breaker threshold: `maxDispatchFailures = 3` (design doc). -/
def maxDispatchFailures : Nat := 3

/-! ## Queue metadata record

Field set from the design document's field reference
(`docs/design/work-queue.md`, "Queue Metadata Format"). -/

/-- A queue item's execution parameters, embedded in the bead description. -/
structure QueueMetadata where
  targetRig : String := ""
  formula : String := ""
  args : String := ""
  vars : List String := []
  enqueuedAt : String := ""
  merge : String := ""
  convoy : String := ""
  baseBranch : String := ""
  noMerge : Bool := false
  account : String := ""
  agent : String := ""
  hookRawBead : Bool := false
  owned : Bool := false
  mode : String := ""
  dispatchFailures : Nat := 0
  lastFailure : String := ""
  deriving Repr, DecidableEq

/-! ## Dispatch Engine capacity formula

Modelled from the spec: `dispatchQueuedWork` (in
`internal/cmd/queue_dispatch.go`, not part of the surveyed sources) is
described by spec section 4.4 step 4 and the design document's dispatch
count formula: `toDispatch = min(capacity, batchSize, readyCount)` where
`capacity = maxPolecats - activePolecats` and `maxPolecats = 0` means
unlimited. Natural-number subtraction realises `max(0, ...)`. -/

/-- Admission count of one dispatch cycle. -/
def admissionCount (maxPolecats activePolecats batchSize readyCount : Nat) : Nat :=
  if maxPolecats = 0 then
    min batchSize readyCount
  else
    min (min (maxPolecats - activePolecats) batchSize) readyCount

/-! ## Queue global state and pause/resume

The state record mirrors `.runtime/queue-state.json` (design doc).
`SetPaused`/`SetResumed` are modelled from the spec ("pure state
transitions on the in-memory struct prior to save", spec 4.5); the
pause/resume command handlers below follow `runQueuePause` /
`runQueueResume` in `internal/cmd/queue.go` lines 259–308, which return
before any save when the toggle is redundant. Each handler returns the
resulting state plus a flag recording whether `SaveQueueState` ran. -/

/-- Persisted queue global state. -/
structure QueueState where
  paused : Bool := false
  pausedBy : String := ""
  pausedAt : String := ""
  lastDispatchAt : String := ""
  lastDispatchCount : Nat := 0
  deriving Repr, DecidableEq

/-- Modelled from the spec: `SetPaused(actor)` marks the state paused and
records the actor and timestamp (state store, spec 4.5; the function body
is not among the surveyed sources). -/
def QueueState.SetPaused (st : QueueState) (actor now : String) : QueueState :=
  { st with paused := true, pausedBy := actor, pausedAt := now }

/-- Modelled from the spec: `SetResumed()` clears the paused state
(state store, spec 4.5; the function body is not among the surveyed
sources). -/
def QueueState.SetResumed (st : QueueState) : QueueState :=
  { st with paused := false, pausedBy := "", pausedAt := "" }

/-- `runQueuePause` (queue.go 259–283): early-return without saving when
already paused, otherwise `SetPaused` + save. Second component: whether
the state file was written. -/
def runQueuePause (st : QueueState) (actor now : String) : QueueState × Bool :=
  if st.paused then (st, false)
  else (st.SetPaused actor now, true)

/-- `runQueueResume` (queue.go 285–308): early-return without saving when
not paused, otherwise `SetResumed` + save. -/
def runQueueResume (st : QueueState) : QueueState × Bool :=
  if st.paused then (st.SetResumed, true)
  else (st, false)

/-! ## Dispatch cycle gating

Modelled from the spec: `dispatchQueuedWork` (spec 4.4 step 1, design
doc dispatch flow) loads the global state and, when it is paused and the
invocation is automatic (non-manual), aborts as a no-op; a manual
invocation proceeds regardless of the paused flag. The proceeding branch
dispatches `admissionCount` items and records telemetry. -/

/-- One dispatch cycle: number of dispatched items and resulting state. -/
def runQueueDispatch (st : QueueState) (isManual : Bool)
    (maxPolecats activePolecats batchSize readyCount : Nat)
    (now : String) : Nat × QueueState :=
  if st.paused && !isManual then (0, st)
  else
    let n := admissionCount maxPolecats activePolecats batchSize readyCount
    (n, { st with lastDispatchAt := now, lastDispatchCount := n })

/-! ## Ready-Set Resolver

Embedding of `listQueuedBeads`, `listQueuedBeadsFrom` and
`listAllQueueLabeledBeadIDs` (queue.go 362–510). The `bd` issue store is
modelled by giving each searched directory the result of its two
queries: `listResult` is the outcome of `bd list --label=gt:queued`
(`none` covers both a failing subprocess and unparseable JSON, each of
which the Go code counts as a directory failure) and `readyResult` the
outcome of `bd ready --label gt:queued` (`none` covers a failing
subprocess or unparseable JSON, which the Go code skips silently).
The metadata decoder is a parameter, matching its use as a black box
in this file of the source. -/

/-- One record of `bd list` output: `{id, title, status, description}`. -/
structure RawBead where
  id : String
  title : String
  status : String
  description : String
  deriving Repr, DecidableEq

/-- One record of `bd ready` output: `{id, description}`. -/
structure ReadyBead where
  id : String
  description : String
  deriving Repr, DecidableEq

/-- A searched bead directory with the results of its two store queries. -/
structure BeadDir where
  listResult : Option (List RawBead)
  readyResult : Option (List ReadyBead)
  deriving Repr, DecidableEq

/-- `queuedBeadInfo` (queue.go 134–140). -/
structure QueuedBeadInfo where
  id : String
  title : String
  status : String
  targetRig : String
  blocked : Bool := false
  deriving Repr, DecidableEq

/-- Whether a description's decoded metadata shows a failure count at or
above the circuit-breaker threshold (the filter on both ready and list
entries, queue.go 390 and 457). -/
def circuitBroken (parse : String → Option QueueMetadata) (desc : String) : Bool :=
  match parse desc with
  | some m => decide (maxDispatchFailures ≤ m.dispatchFailures)
  | none => false

/-- The per-directory step of the ready-id collection loop
(queue.go 376–396): a failed or unparseable ready query contributes
nothing; otherwise the non-circuit-broken entry ids are added. -/
def readyStep (parse : String → Option QueueMetadata) (acc : List String) (d : BeadDir) :
    List String :=
  match d.readyResult with
  | none => acc
  | some bs => acc ++ (bs.filter (fun b => !circuitBroken parse b.description)).map (·.id)

/-- The ready (unblocked) identifier set: all `bd ready` entries across
directories whose metadata is not circuit-broken (queue.go 375–396). -/
def readyIDs (parse : String → Option QueueMetadata) (dirs : List BeadDir) : List String :=
  dirs.foldl (readyStep parse) []

/-- `listQueuedBeadsFrom` (queue.go 429–469): one directory's listing,
decoding each description for the target rig and dropping circuit-broken
beads. -/
def listQueuedBeadsFrom (parse : String → Option QueueMetadata) (d : BeadDir) :
    Option (List QueuedBeadInfo) :=
  d.listResult.map (fun raw =>
    raw.filterMap (fun r =>
      match parse r.description with
      | some m =>
        if maxDispatchFailures ≤ m.dispatchFailures then none
        else some { id := r.id, title := r.title, status := r.status, targetRig := m.targetRig }
      | none => some { id := r.id, title := r.title, status := r.status, targetRig := "" }))

/-- The per-bead step of the aggregation loop in `listQueuedBeads`
(queue.go 407–418): skip hooked/closed, deduplicate by id, reconcile the
blocked flag against the ready set. State: collected infos, seen ids,
failed-directory count. -/
def dedupInsert (ready : List String)
    (acc : List QueuedBeadInfo × List String × Nat) (b : QueuedBeadInfo) :
    List QueuedBeadInfo × List String × Nat :=
  if b.status = "hooked" ∨ b.status = "closed" then acc
  else if b.id ∈ acc.2.1 then acc
  else (acc.1 ++ [{ b with blocked := decide (b.id ∉ ready) }], acc.2.1 ++ [b.id], acc.2.2)

/-- The per-directory step of `listQueuedBeads` (queue.go 400–419). -/
def dirStep (parse : String → Option QueueMetadata) (ready : List String)
    (acc : List QueuedBeadInfo × List String × Nat) (d : BeadDir) :
    List QueuedBeadInfo × List String × Nat :=
  match listQueuedBeadsFrom parse d with
  | none => (acc.1, acc.2.1, acc.2.2 + 1)
  | some bs => bs.foldl (dedupInsert ready) acc

/-- `listQueuedBeads` (queue.go 366–426): aggregate listing across all
directories, failing only when every directory failed. -/
def listQueuedBeads (parse : String → Option QueueMetadata) (dirs : List BeadDir) :
    Except String (List QueuedBeadInfo) :=
  let ready := readyIDs parse dirs
  let r := dirs.foldl (dirStep parse ready) ([], [], 0)
  if r.2.2 = dirs.length ∧ 0 < r.2.2 then
    .error "all bead directories failed"
  else
    .ok r.1

/-- The identifier accumulation of `listAllQueueLabeledBeadIDs`
(queue.go 480–504): raw label query per directory, dedup, count
failures. -/
def listAllStep (acc : List String × Nat) (d : BeadDir) : List String × Nat :=
  match d.listResult with
  | none => (acc.1, acc.2 + 1)
  | some bs => (bs.foldl (fun ids r => if r.id ∈ ids then ids else ids ++ [r.id]) acc.1, acc.2)

/-- `listAllQueueLabeledBeadIDs` (queue.go 474–510): all queue-labeled
ids without status or circuit-breaker filtering; errors when at least
one directory failed and no ids were collected. -/
def listAllQueueLabeledBeadIDs (dirs : List BeadDir) : Except String (List String) :=
  let r := dirs.foldl listAllStep ([], 0)
  if 0 < r.2 ∧ r.1 = [] then .error "all directories failed" else .ok r.1

/-- Decidable error projection for `Except`. -/
def isErr {ε α : Type} : Except ε α → Bool
  | .error _ => true
  | .ok _ => false

/-- A listing entry that passed the status filter and carries the
reconciled blocked flag. -/
def GoodInfo (ready : List String) (b : QueuedBeadInfo) : Prop :=
  b.status ≠ "hooked" ∧ b.status ≠ "closed" ∧ (b.blocked = true ↔ b.id ∉ ready)

/-- The ids accumulated by `listAllQueueLabeledBeadIDs` before its error
check (queue.go 475–504). -/
def listAllCollected (dirs : List BeadDir) : List String :=
  (dirs.foldl listAllStep ([], 0)).1

/-! ## Target-Type Router

Embedding of `detectQueueIDType` (queue_enqueue.go 52–83). The store
lookup `getBeadInfo` is a parameter; classifying a reserved-prefixed
identifier never consults it. -/

/-- A bead record as returned by `getBeadInfo`: issue type discriminator
plus label set (the fields the router reads). -/
structure BeadInfo where
  title : String := ""
  status : String := ""
  assignee : String := ""
  issueType : String := ""
  labels : List String := []
  deriving Repr, DecidableEq

/-- Bool prefix test on strings via their character lists
(`strings.HasPrefix`). -/
def strHasPfx (p s : String) : Bool :=
  p.data.isPrefixOf s.data

/-- The label-scan fallback of the router (queue_enqueue.go 73–80):
first `gt:epic` / `gt:convoy` label decides. -/
def findTypeLabel : List String → Option String
  | [] => none
  | l :: ls =>
    if l = "gt:epic" then some "epic"
    else if l = "gt:convoy" then some "convoy"
    else findTypeLabel ls

/-- `detectQueueIDType` (queue_enqueue.go 52–83). -/
def detectQueueIDType (getInfo : String → Except String BeadInfo) (id : String) :
    Except String String :=
  if strHasPfx "hq-cv-" id then .ok "convoy"
  else
    match getInfo id with
    | .error e => .error ("cannot resolve bead: " ++ e)
    | .ok info =>
      if info.issueType = "epic" then .ok "epic"
      else if info.issueType = "convoy" then .ok "convoy"
      else
        match findTypeLabel info.labels with
        | some t => .ok t
        | none => .ok "task"

/-! ## Batch enqueue operations

Embeddings of `runConvoyQueueByID` (convoy_queue.go 22–153),
`runEpicQueueByID` (queue_enqueue.go, epic section 354–478) and the
batch path of `runTaskQueueEnqueue` (queue_enqueue.go 269–328). The
per-item `enqueueBead` call is a parameter reporting success or failure;
each embedding returns its aggregate result together with the list of
attempted (id, rig) enqueue calls, so that "no write happened" is a
statement about that list. -/

/-- Whether a label set carries the `gt:queued` marker. -/
def hasQueuedLabel (ls : List String) : Bool :=
  decide (LabelQueued ∈ ls)

/-- A tracked issue of a convoy as consumed by the filter loop. -/
structure TrackedIssue where
  id : String
  title : String
  status : String
  assignee : String
  deriving Repr, DecidableEq

/-- A child issue of an epic (`epicChild`, queue_enqueue.go). -/
structure EpicChild where
  id : String
  title : String
  status : String
  assignee : String
  labels : List String
  deriving Repr, DecidableEq

/-- A queueable candidate (`queueCandidate` local struct). -/
structure QueueCandidate where
  id : String
  title : String
  rigName : String
  deriving Repr, DecidableEq

/-- The convoy filter loop (convoy_queue.go 57–92): skip
closed/tombstone, skip assigned unless force, drop issues whose lookup
fails, skip already queued, skip unresolvable rigs. -/
def convoyCandidates (getInfo : String → Except String BeadInfo)
    (resolveRig : String → String) (force : Bool)
    (tracked : List TrackedIssue) : List QueueCandidate :=
  tracked.filterMap (fun t =>
    if t.status = "closed" ∨ t.status = "tombstone" then none
    else if t.assignee ≠ "" ∧ force = false then none
    else
      match getInfo t.id with
      | .error _ => none
      | .ok info =>
        if hasQueuedLabel info.labels then none
        else if resolveRig t.id = "" then none
        else some ⟨t.id, t.title, resolveRig t.id⟩)

/-- The epic filter loop (queue_enqueue.go epic section 388–418): same
shape, but labels come with the child record and no lookup is made. -/
def epicCandidates (resolveRig : String → String) (force : Bool)
    (children : List EpicChild) : List QueueCandidate :=
  children.filterMap (fun c =>
    if c.status = "closed" ∨ c.status = "tombstone" then none
    else if c.assignee ≠ "" ∧ force = false then none
    else if hasQueuedLabel c.labels then none
    else if resolveRig c.id = "" then none
    else some ⟨c.id, c.title, resolveRig c.id⟩)

/-- `runConvoyQueueByID` (convoy_queue.go 22–153). `convoyFound` is the
outcome of `verifyBeadExists`; `trackedRes` the outcome of
`getTrackedIssues`. Returns the aggregate result and the attempted
enqueue calls. -/
def runConvoyQueueByID (convoyFound : Bool)
    (trackedRes : Except String (List TrackedIssue))
    (getInfo : String → Except String BeadInfo) (resolveRig : String → String)
    (enqueueOK : String → String → Bool) (force dryRun : Bool) :
    Except String Unit × List (String × String) :=
  if convoyFound = false then (.error "convoy not found", [])
  else
    match trackedRes with
    | .error e => (.error ("getting tracked issues: " ++ e), [])
    | .ok tracked =>
      if tracked = [] then (.ok (), [])
      else
        let cands := convoyCandidates getInfo resolveRig force tracked
        if cands = [] then (.ok (), [])
        else if dryRun then (.ok (), [])
        else
          let succ := (cands.filter (fun c => enqueueOK c.id c.rigName)).length
          (if succ = 0 then .error "all enqueue attempts failed" else .ok (),
            cands.map (fun c => (c.id, c.rigName)))

/-- `runEpicQueueByID` (queue_enqueue.go epic section 354–478). -/
def runEpicQueueByID (epicFound : Bool)
    (childrenRes : Except String (List EpicChild))
    (resolveRig : String → String)
    (enqueueOK : String → String → Bool) (force dryRun : Bool) :
    Except String Unit × List (String × String) :=
  if epicFound = false then (.error "epic not found", [])
  else
    match childrenRes with
    | .error e => (.error ("listing children: " ++ e), [])
    | .ok children =>
      if children = [] then (.ok (), [])
      else
        let cands := epicCandidates resolveRig force children
        if cands = [] then (.ok (), [])
        else if dryRun then (.ok (), [])
        else
          let succ := (cands.filter (fun c => enqueueOK c.id c.rigName)).length
          (if succ = 0 then .error "all enqueue attempts failed" else .ok (),
            cands.map (fun c => (c.id, c.rigName)))

/-- The pre-write type validation of a multi-bead task batch
(queue_enqueue.go 272–280): each identifier after the first must detect
as a task; the first offender aborts with its error. -/
def taskBatchTypeErr (detect : String → Except String String) :
    List String → Option String
  | [] => none
  | id :: rest =>
    match detect id with
    | .error e => some ("cannot resolve bead: " ++ e)
    | .ok t =>
      if t ≠ "task" then some ("mixed ID types in batch: not a task bead")
      else taskBatchTypeErr detect rest

/-- The rig resolved for one batch entry (queue_enqueue.go 289–297):
an explicit trailing rig wins, otherwise the prefix resolution; an empty
result means the entry is reported and skipped. -/
def batchRigFor (resolveRig : String → String) (explicitRig id : String) : String :=
  if explicitRig = "" then resolveRig id else explicitRig

/-- The batch path of `runTaskQueueEnqueue` (queue_enqueue.go 269–328):
validate types first, then enqueue every bead with a resolvable rig,
failing in aggregate only when no enqueue succeeded. -/
def runTaskBatch (detect : String → Except String String)
    (resolveRig : String → String) (enqueueOK : String → String → Bool)
    (beadArgs : List String) (explicitRig : String) :
    Except String Unit × List (String × String) :=
  match taskBatchTypeErr detect beadArgs.tail with
  | some e => (.error e, [])
  | none =>
    let attempted := beadArgs.filterMap (fun id =>
      let rig := batchRigFor resolveRig explicitRig id
      if rig = "" then none else some (id, rig))
    let succ := (attempted.filter (fun p => enqueueOK p.1 p.2)).length
    (if succ = 0 then .error ("all enqueue attempts failed") else .ok (), attempted)

/-- Sample store lookup used by batch witnesses. -/
def smplGetInfo : String → Except String BeadInfo := fun _ => .ok {}

/-- Sample rig resolution used by batch witnesses. -/
def smplRig : String → String := fun _ => "rigA"

/-- Sample always-succeeding enqueue used by batch witnesses. -/
def smplEnq : String → String → Bool := fun _ _ => true

/-- Sample convoy tracked-issue list used by batch witnesses. -/
def smplTracked : List TrackedIssue := [⟨"gt-1", "T", "open", ""⟩]

/-- Sample epic children list used by batch witnesses. -/
def smplChildren : List EpicChild := [⟨"gt-2", "U", "open", "", []⟩]

/-- Sample all-task type detection used by batch witnesses. -/
def smplDetect : String → Except String String := fun _ => .ok "task"

/-- Sample type detection classifying one batch entry as a convoy. -/
def smplDetectMixed : String → Except String String :=
  fun id => if id = "hq-cv-2" then .ok "convoy" else .ok "task"

/-! ## Metadata codec

Modelled from the spec: `FormatQueueMetadata`, `ParseQueueMetadata` and
`StripQueueMetadata` (spec 4.1 and the wire format of spec section 6;
the codec source `internal/cmd/queue_metadata.go` is not among the
surveyed sources). The wire format is a single delimiter line
`---gt:queue:v1---` followed by `key: value` lines, one `var:` line per
variable, case-sensitive, no escaping, values newline-free. Parsing
ignores unrecognised keys and treats malformed integers as zero;
stripping removes everything from the first exact substring occurrence
of the delimiter onward. Text is manipulated as character lists. -/

/-- The namespaced metadata delimiter as a character list. -/
def delimChars : List Char := "---gt:queue:v1---".data

/-- The `key: value` separator. -/
def kvSepChars : List Char := [':', ' ']

/-- Split a character list into lines at newline characters. -/
def splitLines : List Char → List (List Char)
  | [] => [[]]
  | c :: cs =>
    if c = '\n' then [] :: splitLines cs
    else
      match splitLines cs with
      | [] => [[c]]
      | l :: ls => (c :: l) :: ls

/-- Join lines with newline characters. -/
def joinLines : List (List Char) → List Char
  | [] => []
  | [l] => l
  | l :: ls => l ++ '\n' :: joinLines ls

/-- Split a character list at the first occurrence of `pat`, returning
the text before it and the text after it (`strings.Index` semantics). -/
def firstOccSplit (pat : List Char) : List Char → Option (List Char × List Char)
  | [] => if pat.isPrefixOf ([] : List Char) then some ([], []) else none
  | c :: cs =>
    if pat.isPrefixOf (c :: cs) then some ([], (c :: cs).drop pat.length)
    else (firstOccSplit pat cs).map (fun p => (c :: p.1, p.2))

/-- Decimal digit characters of a natural number (helper with explicit
fuel so that evaluation is structural). -/
def natToCharsAux : Nat → Nat → List Char
  | 0, _ => []
  | fuel + 1, n =>
    if n < 10 then [Char.ofNat (48 + n)]
    else natToCharsAux fuel (n / 10) ++ [Char.ofNat (48 + n % 10)]

/-- Decimal rendering of a natural number (`strconv.Itoa`). -/
def natToChars (n : Nat) : List Char := natToCharsAux (n + 1) n

/-- Value of a digit string (helper for parsing). -/
def digitsVal (v : List Char) : Nat :=
  v.foldl (fun a c => a * 10 + (c.toNat - 48)) 0

/-- Integer parsing with the malformed-value-is-zero policy of spec 4.1
(`strconv.Atoi` failure treated as zero). -/
def charsToNat (v : List Char) : Nat :=
  if v ≠ [] ∧ v.all (fun c => c.isDigit) then digitsVal v else 0

/-- Boolean rendering. -/
def boolChars (b : Bool) : List Char :=
  if b then "true".data else "false".data

/-- One `key: value` wire line. -/
def kvLine (k : String) (v : List Char) : List Char :=
  k.data ++ ':' :: ' ' :: v

/-- The formatted field lines of a metadata record, in the fixed field
order of the design document's field reference (one `var:` line per
variable). -/
def fieldLines (m : QueueMetadata) : List (List Char) :=
  [kvLine "target_rig" m.targetRig.data,
   kvLine "formula" m.formula.data,
   kvLine "args" m.args.data]
  ++ m.vars.map (fun v => kvLine "var" v.data)
  ++ [kvLine "enqueued_at" m.enqueuedAt.data,
      kvLine "merge" m.merge.data,
      kvLine "convoy" m.convoy.data,
      kvLine "base_branch" m.baseBranch.data,
      kvLine "no_merge" (boolChars m.noMerge),
      kvLine "account" m.account.data,
      kvLine "agent" m.agent.data,
      kvLine "hook_raw_bead" (boolChars m.hookRawBead),
      kvLine "owned" (boolChars m.owned),
      kvLine "mode" m.mode.data,
      kvLine "dispatch_failures" (natToChars m.dispatchFailures),
      kvLine "last_failure" m.lastFailure.data]

/-- Modelled from the spec: `FormatQueueMetadata` appends the delimiter
line and the `key: value` lines to an existing description (spec 4.1,
deterministic field order). -/
def FormatQueueMetadata (desc : String) (m : QueueMetadata) : String :=
  ⟨desc.data ++ ('\n' :: (delimChars ++ ('\n' :: joinLines (fieldLines m))))⟩

/-- Drop lines up to and including the first delimiter line; `none` when
the delimiter is absent. -/
def dropUntilDelim : List (List Char) → Option (List (List Char))
  | [] => none
  | l :: ls => if l = delimChars then some ls else dropUntilDelim ls

/-- Apply one wire line to a metadata record under construction:
recognised keys set their field (`var` appends), unrecognised keys and
malformed lines are ignored (spec 4.1 forward compatibility). -/
def parseFieldLine (m : QueueMetadata) (line : List Char) : QueueMetadata :=
  match firstOccSplit kvSepChars line with
  | none => m
  | some (k, v) =>
    if k = "target_rig".data then { m with targetRig := ⟨v⟩ }
    else if k = "formula".data then { m with formula := ⟨v⟩ }
    else if k = "args".data then { m with args := ⟨v⟩ }
    else if k = "var".data then { m with vars := m.vars ++ [⟨v⟩] }
    else if k = "enqueued_at".data then { m with enqueuedAt := ⟨v⟩ }
    else if k = "merge".data then { m with merge := ⟨v⟩ }
    else if k = "convoy".data then { m with convoy := ⟨v⟩ }
    else if k = "base_branch".data then { m with baseBranch := ⟨v⟩ }
    else if k = "no_merge".data then { m with noMerge := decide (v = "true".data) }
    else if k = "account".data then { m with account := ⟨v⟩ }
    else if k = "agent".data then { m with agent := ⟨v⟩ }
    else if k = "hook_raw_bead".data then { m with hookRawBead := decide (v = "true".data) }
    else if k = "owned".data then { m with owned := decide (v = "true".data) }
    else if k = "mode".data then { m with mode := ⟨v⟩ }
    else if k = "dispatch_failures".data then { m with dispatchFailures := charsToNat v }
    else if k = "last_failure".data then { m with lastFailure := ⟨v⟩ }
    else m

/-- Modelled from the spec: `ParseQueueMetadata` returns `none` when the
delimiter line is absent, otherwise parses the lines after the delimiter
up to the next delimiter line or end of text (spec 4.1). -/
def ParseQueueMetadata (desc : String) : Option QueueMetadata :=
  match dropUntilDelim (splitLines desc.data) with
  | none => none
  | some rest =>
    some (((rest.takeWhile (fun l => decide (l ≠ delimChars))).foldl parseFieldLine {}))

/-- Modelled from the spec: `StripQueueMetadata` removes the delimited
block via exact substring match on the delimiter, leaving any preceding
user text intact (spec 4.1). -/
def StripQueueMetadata (desc : String) : String :=
  match firstOccSplit delimChars desc.data with
  | none => desc
  | some p => ⟨p.1⟩

/-- Number of delimiter lines in a description — the number of embedded
metadata blocks. -/
def metaBlockCount (desc : String) : Nat :=
  (splitLines desc.data).countP (fun l => decide (l = delimChars))

/-- All string-valued fields of a metadata record are newline-free —
the wire-format precondition of spec section 6 ("values must not
themselves contain a newline"). -/
def CleanMeta (m : QueueMetadata) : Prop :=
  '\n' ∉ m.targetRig.data ∧ '\n' ∉ m.formula.data ∧ '\n' ∉ m.args.data ∧
  (∀ v ∈ m.vars, '\n' ∉ v.data) ∧ '\n' ∉ m.enqueuedAt.data ∧
  '\n' ∉ m.merge.data ∧ '\n' ∉ m.convoy.data ∧ '\n' ∉ m.baseBranch.data ∧
  '\n' ∉ m.account.data ∧ '\n' ∉ m.agent.data ∧ '\n' ∉ m.mode.data ∧
  '\n' ∉ m.lastFailure.data

/-- Sample metadata record for the codec witness: repeated variables,
zero-valued fields, and values containing the separator. -/
def smplMeta : QueueMetadata :=
  { targetRig := "gastown", formula := "", args := "fix: the bug",
    vars := ["k=v", "k=v"], enqueuedAt := "2026-02-19T10:00:00Z", merge := "",
    convoy := "hq-cv-1", baseBranch := "", noMerge := false, account := "",
    agent := "codex", hookRawBead := true, owned := false, mode := "",
    dispatchFailures := 0, lastFailure := "" }

/-- Sample user description for the codec witness. -/
def smplDesc : String := "user text\nsecond line"

/-! ## Enqueue pipeline

Modelled from the spec: `enqueueBead` (spec 4.3; the pipeline source
`internal/cmd/sling_queue.go` is not among the surveyed sources). The
store's single-record reads and writes are collapsed into the bead value
itself; the cross-rig guard and formula checks are boolean inputs; the
guards appear in the spec's order (existence is implied by being handed
the record; cross-partition guard, idempotency check, status guard,
formula checks, strip-then-format metadata write, label activation). -/

/-- A bead record as the enqueue pipeline sees it. -/
structure Bead where
  status : String
  labels : List String
  description : String
  deriving Repr, DecidableEq

/-- Set-semantic label addition (`bd update --add-label`). -/
def addLabel (l : String) (ls : List String) : List String :=
  if l ∈ ls then ls else ls ++ [l]

/-- Modelled from the spec: one enqueue of a bead (spec 4.3 steps 2–9).
A successful enqueue strips any pre-existing metadata block, appends the
freshly formatted block, and adds the `gt:queued` label. -/
def enqueueBead (crossRigOK formulaOK : Bool) (b : Bead) (meta : QueueMetadata)
    (force : Bool) : Except String Bead :=
  if crossRigOK = false ∧ force = false then .error "cross-rig guard"
  else if b.status = "open" ∧ LabelQueued ∈ b.labels ∧ force = false then .ok b
  else if (b.status = "hooked" ∨ b.status = "in_progress") ∧ force = false then
    .error "status guard"
  else if formulaOK = false then .error "formula invalid"
  else .ok { b with
    description := FormatQueueMetadata (StripQueueMetadata b.description) meta,
    labels := addLabel LabelQueued b.labels }

/-- Sample pre-enqueue bead: open, unqueued, with a stale metadata block
left in its description. -/
def smplBead0 : Bead :=
  { status := "open", labels := ["bug"],
    description := "old\n---gt:queue:v1---\ntarget_rig: x" }

/-- The bead produced by enqueueing `smplBead0` with `smplMeta`. -/
def smplBead1 : Bead :=
  { status := "open", labels := ["bug", "gt:queued"],
    description := FormatQueueMetadata "old\n" smplMeta }

theorem dedupInsert_good {ready : List String}
    {acc : List QueuedBeadInfo × List String × Nat} {b' : QueuedBeadInfo}
    (h : ∀ b ∈ acc.1, GoodInfo ready b) :
    ∀ b ∈ (dedupInsert ready acc b').1, GoodInfo ready b := by
  intro b hb
  unfold dedupInsert at hb
  split at hb
  · exact h b hb
  · split at hb
    · exact h b hb
    · rename_i hstat _
      rcases List.mem_append.mp hb with hold | hnew
      · exact h b hold
      · rcases List.mem_singleton.mp hnew with rfl
        push_neg at hstat
        exact ⟨hstat.1, hstat.2, by simp⟩

theorem foldl_dedupInsert_good {ready : List String} (bs : List QueuedBeadInfo) :
    ∀ acc : List QueuedBeadInfo × List String × Nat,
      (∀ b ∈ acc.1, GoodInfo ready b) →
      ∀ b ∈ (bs.foldl (dedupInsert ready) acc).1, GoodInfo ready b := by
  induction bs with
  | nil => intro acc h; exact h
  | cons x xs ih =>
    intro acc h
    exact ih (dedupInsert ready acc x) (dedupInsert_good h)

theorem foldl_dirStep_good (parse : String → Option QueueMetadata) (ready : List String)
    (dirs : List BeadDir) :
    ∀ acc : List QueuedBeadInfo × List String × Nat,
      (∀ b ∈ acc.1, GoodInfo ready b) →
      ∀ b ∈ (dirs.foldl (dirStep parse ready) acc).1, GoodInfo ready b := by
  induction dirs with
  | nil => intro acc h; exact h
  | cons d ds ih =>
    intro acc h
    refine ih (dirStep parse ready acc d) ?_
    unfold dirStep
    cases listQueuedBeadsFrom parse d with
    | none => exact h
    | some bs => exact foldl_dedupInsert_good bs acc h

theorem mem_readyStep {parse : String → Option QueueMetadata} {acc : List String}
    {d : BeadDir} {x : String} (hx : x ∈ readyStep parse acc d) :
    x ∈ acc ∨ ∃ l, d.readyResult = some l ∧
      ∃ rb ∈ l, rb.id = x ∧ circuitBroken parse rb.description = false := by
  unfold readyStep at hx
  cases hr : d.readyResult with
  | none => rw [hr] at hx; exact .inl hx
  | some bs =>
    rw [hr] at hx
    rcases List.mem_append.mp hx with h1 | h2
    · exact .inl h1
    · rcases List.mem_map.mp h2 with ⟨rb, hrb, hid⟩
      rcases List.mem_filter.mp hrb with ⟨hrbl, hcb⟩
      exact .inr ⟨bs, rfl, rb, hrbl, hid, by simpa using hcb⟩

theorem mem_readyIDs_aux (parse : String → Option QueueMetadata) (dirs : List BeadDir) :
    ∀ acc x, x ∈ dirs.foldl (readyStep parse) acc →
      x ∈ acc ∨ ∃ d ∈ dirs, ∃ l, d.readyResult = some l ∧
        ∃ rb ∈ l, rb.id = x ∧ circuitBroken parse rb.description = false := by
  induction dirs with
  | nil => intro acc x hx; exact .inl hx
  | cons d ds ih =>
    intro acc x hx
    rw [List.foldl_cons] at hx
    rcases ih _ x hx with hacc | ⟨d', hd', l, hl, rb, hrb, hid, hcb⟩
    · rcases mem_readyStep hacc with h1 | ⟨l, hl, rb, hrb, hid, hcb⟩
      · exact .inl h1
      · exact .inr ⟨d, List.mem_cons_self _ _, l, hl, rb, hrb, hid, hcb⟩
    · exact .inr ⟨d', List.mem_cons_of_mem _ hd', l, hl, rb, hrb, hid, hcb⟩

theorem mem_readyIDs {parse : String → Option QueueMetadata} {dirs : List BeadDir} {x : String}
    (hx : x ∈ readyIDs parse dirs) :
    ∃ d ∈ dirs, ∃ l, d.readyResult = some l ∧
      ∃ rb ∈ l, rb.id = x ∧ circuitBroken parse rb.description = false := by
  rcases mem_readyIDs_aux parse dirs [] x hx with h | h
  · cases h
  · exact h

theorem foldl_dedupInsert_count {ready : List String} (bs : List QueuedBeadInfo) :
    ∀ acc : List QueuedBeadInfo × List String × Nat,
      (bs.foldl (dedupInsert ready) acc).2.2 = acc.2.2 := by
  induction bs with
  | nil => intro acc; rfl
  | cons x xs ih =>
    intro acc
    rw [List.foldl_cons, ih]
    unfold dedupInsert
    split
    · rfl
    · split <;> rfl

theorem foldl_dirStep_count (parse : String → Option QueueMetadata) (ready : List String)
    (dirs : List BeadDir) :
    ∀ acc : List QueuedBeadInfo × List String × Nat,
      (dirs.foldl (dirStep parse ready) acc).2.2 =
        acc.2.2 + dirs.countP (fun d => d.listResult.isNone) := by
  induction dirs with
  | nil => intro acc; simp
  | cons d ds ih =>
    intro acc
    rw [List.foldl_cons, ih]
    rw [List.countP_cons]
    unfold dirStep listQueuedBeadsFrom
    cases hl : d.listResult with
    | none => simp [hl]; omega
    | some bs =>
      simp only [hl, Option.map_some', foldl_dedupInsert_count, Option.isNone_some]
      simp

/-- C1: every entry listed by the Ready-Set Resolver has a status that is
neither hooked nor closed, its blocked field is true exactly when its id
is not in the ready subset, and every member of the ready subset is
witnessed by a ready-query entry whose decoded metadata is not at the
circuit-breaker threshold (so circuit-broken entries are excluded from
the ready subset). -/
theorem c1_ready_set_resolver_filters (parse : String → Option QueueMetadata)
    (dirs : List BeadDir) (res : List QueuedBeadInfo)
    (h : listQueuedBeads parse dirs = .ok res) :
    (∀ b ∈ res, b.status ≠ "hooked" ∧ b.status ≠ "closed" ∧
      (b.blocked = true ↔ b.id ∉ readyIDs parse dirs)) ∧
    (∀ x ∈ readyIDs parse dirs, ∃ d ∈ dirs, ∃ l, d.readyResult = some l ∧
      ∃ rb ∈ l, rb.id = x ∧ circuitBroken parse rb.description = false) := by
  constructor
  · intro b hb
    have hres : res = (dirs.foldl (dirStep parse (readyIDs parse dirs)) ([], [], 0)).1 := by
      simp only [listQueuedBeads] at h
      split at h
      · cases h
      · exact (Except.ok.injEq _ _).mp h.symm
    have := foldl_dirStep_good parse (readyIDs parse dirs) dirs ([], [], 0)
      (by intro b hb; cases hb) b (hres ▸ hb)
    exact this
  · intro x hx
    exact mem_readyIDs hx

/-- Witness for C1: a one-directory store with a single open queued bead. -/
theorem c1_ready_set_resolver_filters_witness :
    (∀ b ∈ [{ id := "b1", title := "T", status := "open", targetRig := "",
              blocked := false : QueuedBeadInfo }],
      b.status ≠ "hooked" ∧ b.status ≠ "closed" ∧
      (b.blocked = true ↔ b.id ∉ readyIDs (fun _ => none)
        [⟨some [⟨"b1", "T", "open", "d"⟩], some [⟨"b1", "d"⟩]⟩])) ∧
    (∀ x ∈ readyIDs (fun _ => none)
        [⟨some [⟨"b1", "T", "open", "d"⟩], some [⟨"b1", "d"⟩]⟩],
      ∃ d ∈ [({ listResult := some [⟨"b1", "T", "open", "d"⟩],
                readyResult := some [⟨"b1", "d"⟩] } : BeadDir)],
        ∃ l, d.readyResult = some l ∧
          ∃ rb ∈ l, rb.id = x ∧
            circuitBroken (fun _ => none) rb.description = false) :=
  c1_ready_set_resolver_filters (fun _ => none)
    [⟨some [⟨"b1", "T", "open", "d"⟩], some [⟨"b1", "d"⟩]⟩]
    [{ id := "b1", title := "T", status := "open", targetRig := "", blocked := false }]
    rfl

theorem foldl_listAllStep_count (dirs : List BeadDir) :
    ∀ acc : List String × Nat,
      (dirs.foldl listAllStep acc).2 =
        acc.2 + dirs.countP (fun d => d.listResult.isNone) := by
  induction dirs with
  | nil => intro acc; simp
  | cons d ds ih =>
    intro acc
    rw [List.foldl_cons, ih, List.countP_cons]
    unfold listAllStep
    cases hl : d.listResult with
    | none => simp [hl]; omega
    | some bs => simp [hl]

/-- C2 counterexample: with two partitions, the first failing its
labeled-set query and the second succeeding with an empty listing,
`listAllQueueLabeledBeadIDs` returns an aggregate error even though not
every partition's query failed — refuting "returns an aggregate error
if and only if every partition's labeled-set query fails" and "if only
some partitions fail, it returns the partial results from the
succeeding partitions with no error". -/
theorem c2_error_policy_counterexample :
    isErr (listAllQueueLabeledBeadIDs
      [⟨none, none⟩, ⟨some [], none⟩]) = true ∧
    ¬(∀ d ∈ [({ listResult := none, readyResult := none } : BeadDir),
             ({ listResult := some [], readyResult := none } : BeadDir)],
        d.listResult = none) := by
  decide

/-- C2 amended: `listQueuedBeads` returns an aggregate error if and only
if every partition's labeled-set query failed and at least one partition
was queried (partial failures return partial results with no error);
`listAllQueueLabeledBeadIDs` returns an error if and only if at least
one partition's query failed and no identifiers at all were collected
from the succeeding partitions. -/
theorem c2_error_policy_amended (parse : String → Option QueueMetadata)
    (dirs : List BeadDir) :
    (isErr (listQueuedBeads parse dirs) = true ↔
      0 < dirs.length ∧ ∀ d ∈ dirs, d.listResult = none) ∧
    (isErr (listAllQueueLabeledBeadIDs dirs) = true ↔
      (∃ d ∈ dirs, d.listResult = none) ∧ listAllCollected dirs = []) := by
  constructor
  · have hc := foldl_dirStep_count parse (readyIDs parse dirs) dirs ([], [], 0)
    simp only [Nat.zero_add] at hc
    simp only [listQueuedBeads]
    split <;> rename_i hcond
    · simp only [isErr, true_iff]
      rw [hc] at hcond
      constructor
      · omega
      · intro d hd
        have := List.countP_eq_length.mp hcond.1 d hd
        simpa using this
    · simp only [isErr]
      constructor
      · intro h; exact absurd h (by decide)
      · rintro ⟨hlen, hall⟩
        exfalso
        apply hcond
        rw [hc]
        have : dirs.countP (fun d => d.listResult.isNone) = dirs.length :=
          List.countP_eq_length.mpr (fun d hd => by simp [hall d hd])
        omega
  · have hc := foldl_listAllStep_count dirs ([], 0)
    simp only [Nat.zero_add] at hc
    simp only [listAllQueueLabeledBeadIDs, listAllCollected]
    split <;> rename_i hcond
    · simp only [isErr, true_iff]
      rw [hc] at hcond
      refine ⟨?_, hcond.2⟩
      have := hcond.1
      rw [List.countP_pos_iff] at this
      rcases this with ⟨d, hd, hnone⟩
      exact ⟨d, hd, by simpa using hnone⟩
    · simp only [isErr]
      constructor
      · intro h; exact absurd h (by decide)
      · rintro ⟨⟨d, hd, hnone⟩, hids⟩
        exfalso
        apply hcond
        rw [hc]
        refine ⟨?_, hids⟩
        rw [List.countP_pos_iff]
        exact ⟨d, hd, by simp [hnone]⟩

theorem findTypeLabel_none {ls : List String}
    (he : "gt:epic" ∉ ls) (hc : "gt:convoy" ∉ ls) : findTypeLabel ls = none := by
  induction ls with
  | nil => rfl
  | cons l ls ih =>
    have h1 : l ≠ "gt:epic" := fun h => he (h ▸ List.mem_cons_self _ _)
    have h2 : l ≠ "gt:convoy" := fun h => hc (h ▸ List.mem_cons_self _ _)
    simp only [findTypeLabel, if_neg h1, if_neg h2]
    exact ih (fun h => he (List.mem_cons_of_mem _ h))
      (fun h => hc (List.mem_cons_of_mem _ h))

theorem findTypeLabel_epic {ls : List String}
    (he : "gt:epic" ∈ ls) (hc : "gt:convoy" ∉ ls) : findTypeLabel ls = some "epic" := by
  induction ls with
  | nil => cases he
  | cons l ls ih =>
    by_cases h1 : l = "gt:epic"
    · simp [findTypeLabel, h1]
    · have h2 : l ≠ "gt:convoy" := fun h => hc (h ▸ List.mem_cons_self _ _)
      simp only [findTypeLabel, if_neg h1, if_neg h2]
      have he' : "gt:epic" ∈ ls := by
        rcases List.mem_cons.mp he with h | h
        · exact absurd h.symm h1
        · exact h
      exact ih he' (fun h => hc (List.mem_cons_of_mem _ h))

theorem findTypeLabel_convoy {ls : List String}
    (he : "gt:epic" ∉ ls) (hc : "gt:convoy" ∈ ls) : findTypeLabel ls = some "convoy" := by
  induction ls with
  | nil => cases hc
  | cons l ls ih =>
    have h1 : l ≠ "gt:epic" := fun h => he (h ▸ List.mem_cons_self _ _)
    by_cases h2 : l = "gt:convoy"
    · simp [findTypeLabel, h1, h2]
    · simp only [findTypeLabel, if_neg h1, if_neg h2]
      have hc' : "gt:convoy" ∈ ls := by
        rcases List.mem_cons.mp hc with h | h
        · exact absurd h.symm h2
        · exact h
      exact ih (fun h => he (List.mem_cons_of_mem _ h)) hc'

/-- C3: the Target-Type Router classifies a reserved-prefixed
(`hq-cv-`) identifier as a convoy independently of the store lookup;
otherwise the looked-up `issue_type` discriminator decides (`epic` or
`convoy`); otherwise a `gt:epic` or `gt:convoy` label decides; and with
no type signal at all the identifier is classified as a single task. -/
theorem c3_target_type_router (g g' : String → Except String BeadInfo)
    (id : String) (info : BeadInfo) :
    (strHasPfx "hq-cv-" id = true →
      detectQueueIDType g id = .ok "convoy" ∧
      detectQueueIDType g id = detectQueueIDType g' id) ∧
    (strHasPfx "hq-cv-" id = false → g id = .ok info →
      (info.issueType = "epic" → detectQueueIDType g id = .ok "epic") ∧
      (info.issueType = "convoy" → detectQueueIDType g id = .ok "convoy") ∧
      (info.issueType ≠ "epic" → info.issueType ≠ "convoy" →
        ("gt:epic" ∈ info.labels → "gt:convoy" ∉ info.labels →
          detectQueueIDType g id = .ok "epic") ∧
        ("gt:convoy" ∈ info.labels → "gt:epic" ∉ info.labels →
          detectQueueIDType g id = .ok "convoy") ∧
        ("gt:epic" ∉ info.labels → "gt:convoy" ∉ info.labels →
          detectQueueIDType g id = .ok "task"))) := by
  constructor
  · intro hp
    constructor <;> simp [detectQueueIDType, hp]
  · intro hp hg
    refine ⟨?_, ?_, ?_⟩
    · intro ht; simp [detectQueueIDType, hp, hg, ht]
    · intro ht; simp [detectQueueIDType, hp, hg, ht]
    · intro h1 h2
      refine ⟨?_, ?_, ?_⟩
      · intro he hcn
        simp [detectQueueIDType, hp, hg, h1, h2, findTypeLabel_epic he hcn]
      · intro hcv hen
        simp [detectQueueIDType, hp, hg, h1, h2, findTypeLabel_convoy hen hcv]
      · intro hen hcn
        simp [detectQueueIDType, hp, hg, h1, h2, findTypeLabel_none hen hcn]

/-- Witness for C3: a reserved-prefix identifier with two distinct
lookups, and a plain identifier resolved with no type signal. -/
theorem c3_target_type_router_witness :
    (detectQueueIDType (fun _ => .ok { issueType := "epic" }) "hq-cv-7" = .ok "convoy" ∧
      detectQueueIDType (fun _ => .ok { issueType := "epic" }) "hq-cv-7" =
        detectQueueIDType (fun _ => .error "down") "hq-cv-7") ∧
    detectQueueIDType (fun _ => .ok ({ labels := ["mol"] } : BeadInfo)) "gt-1" = .ok "task" := by
  refine ⟨(c3_target_type_router (fun _ => .ok { issueType := "epic" })
      (fun _ => .error "down") "hq-cv-7" {}).1 (by decide), ?_⟩
  exact (((c3_target_type_router (fun _ => .ok ({ labels := ["mol"] } : BeadInfo))
      (fun _ => .error "down") "gt-1" { labels := ["mol"] }).2 (by decide) rfl).2.2
      (by decide) (by decide)).2.2 (by decide) (by decide)

theorem taskBatchTypeErr_eq_none {detect : String → Except String String}
    {rest : List String} (h : ∀ id ∈ rest, detect id = .ok "task") :
    taskBatchTypeErr detect rest = none := by
  induction rest with
  | nil => rfl
  | cons id rest ih =>
    have hd := h id (List.mem_cons_self _ _)
    simp only [taskBatchTypeErr, hd]
    simpa using ih (fun i hi => h i (List.mem_cons_of_mem _ hi))

theorem taskBatchTypeErr_isSome {detect : String → Except String String}
    {rest : List String} (h : ∃ id ∈ rest, detect id ≠ .ok "task") :
    ∃ e, taskBatchTypeErr detect rest = some e := by
  induction rest with
  | nil => rcases h with ⟨id, hid, _⟩; cases hid
  | cons id rest ih =>
    cases hd : detect id with
    | error e =>
      exact ⟨"cannot resolve bead: " ++ e, by simp [taskBatchTypeErr, hd]⟩
    | ok t =>
      by_cases ht : t = "task"
      · subst ht
        have hrec : ∃ e, taskBatchTypeErr detect rest = some e := by
          apply ih
          rcases h with ⟨i, hi, hne⟩
          rcases List.mem_cons.mp hi with rfl | hi'
          · exact absurd hd hne
          · exact ⟨i, hi', hne⟩
        simpa [taskBatchTypeErr, hd] using hrec
      · exact ⟨"mixed ID types in batch: not a task bead",
          by simp [taskBatchTypeErr, hd, ht]⟩

theorem filter_length_zero_iff {α : Type} (p : α → Bool) (l : List α) :
    (l.filter p).length = 0 ↔ ∀ x ∈ l, p x = false := by
  rw [List.length_eq_zero, List.filter_eq_nil_iff]
  simp

theorem aggregateResult_iff {α : Type} (p : α → Bool) (cands : List α) :
    isErr (if (cands.filter p).length = 0 then
      (Except.error "all enqueue attempts failed" : Except String Unit)
      else .ok ()) = true ↔ ∀ c ∈ cands, p c = false := by
  split <;> rename_i hz
  · simp only [isErr, true_iff]
    exact (filter_length_zero_iff _ _).mp hz
  · simp only [isErr]
    constructor
    · intro h; exact absurd h (by decide)
    · intro hall
      exact absurd ((filter_length_zero_iff _ _).mpr hall) hz

/-- C4: for a convoy fan-out, an epic fan-out and a multi-item task
batch (each with dry-run off and at least one candidate surviving the
skip filters), every candidate is attempted — the attempted-call list is
exactly the candidate list, so a per-item failure does not abort the
batch — and the operation returns an aggregate error exactly when every
per-item enqueue failed, i.e. the success count is zero. -/
theorem c4_batch_aggregate_error_policy
    (getInfo : String → Except String BeadInfo) (resolveRig : String → String)
    (enqueueOK : String → String → Bool)
    (tracked : List TrackedIssue) (children : List EpicChild)
    (detect : String → Except String String)
    (beadArgs : List String) (explicitRig : String) (force : Bool) :
    (convoyCandidates getInfo resolveRig force tracked ≠ [] →
      (runConvoyQueueByID true (.ok tracked) getInfo resolveRig enqueueOK force false).2 =
        (convoyCandidates getInfo resolveRig force tracked).map (fun c => (c.id, c.rigName)) ∧
      (isErr (runConvoyQueueByID true (.ok tracked) getInfo resolveRig enqueueOK force false).1 = true ↔
        ∀ c ∈ convoyCandidates getInfo resolveRig force tracked,
          enqueueOK c.id c.rigName = false)) ∧
    (epicCandidates resolveRig force children ≠ [] →
      (runEpicQueueByID true (.ok children) resolveRig enqueueOK force false).2 =
        (epicCandidates resolveRig force children).map (fun c => (c.id, c.rigName)) ∧
      (isErr (runEpicQueueByID true (.ok children) resolveRig enqueueOK force false).1 = true ↔
        ∀ c ∈ epicCandidates resolveRig force children,
          enqueueOK c.id c.rigName = false)) ∧
    ((∀ id ∈ beadArgs.tail, detect id = .ok "task") →
      (runTaskBatch detect resolveRig enqueueOK beadArgs explicitRig).2 =
        beadArgs.filterMap (fun id =>
          if batchRigFor resolveRig explicitRig id = "" then none
          else some (id, batchRigFor resolveRig explicitRig id)) ∧
      (isErr (runTaskBatch detect resolveRig enqueueOK beadArgs explicitRig).1 = true ↔
        ∀ p ∈ beadArgs.filterMap (fun id =>
          if batchRigFor resolveRig explicitRig id = "" then none
          else some (id, batchRigFor resolveRig explicitRig id)),
          enqueueOK p.1 p.2 = false)) := by
  refine ⟨?_, ?_, ?_⟩
  · intro hc
    have htr : tracked ≠ [] := by
      intro h; subst h; simp [convoyCandidates] at hc
    have key : runConvoyQueueByID true (.ok tracked) getInfo resolveRig enqueueOK force false =
        (if ((convoyCandidates getInfo resolveRig force tracked).filter
            (fun c => enqueueOK c.id c.rigName)).length = 0
          then .error "all enqueue attempts failed" else .ok (),
         (convoyCandidates getInfo resolveRig force tracked).map
           (fun c => (c.id, c.rigName))) := by
      simp [runConvoyQueueByID, htr, hc]
    rw [key]
    exact ⟨rfl, aggregateResult_iff _ _⟩
  · intro hc
    have htr : children ≠ [] := by
      intro h; subst h; simp [epicCandidates] at hc
    have key : runEpicQueueByID true (.ok children) resolveRig enqueueOK force false =
        (if ((epicCandidates resolveRig force children).filter
            (fun c => enqueueOK c.id c.rigName)).length = 0
          then .error "all enqueue attempts failed" else .ok (),
         (epicCandidates resolveRig force children).map
           (fun c => (c.id, c.rigName))) := by
      simp [runEpicQueueByID, htr, hc]
    rw [key]
    exact ⟨rfl, aggregateResult_iff _ _⟩
  · intro hval
    have key : runTaskBatch detect resolveRig enqueueOK beadArgs explicitRig =
        (if ((beadArgs.filterMap (fun id =>
            if batchRigFor resolveRig explicitRig id = "" then none
            else some (id, batchRigFor resolveRig explicitRig id))).filter
            (fun p => enqueueOK p.1 p.2)).length = 0
          then .error "all enqueue attempts failed" else .ok (),
         beadArgs.filterMap (fun id =>
            if batchRigFor resolveRig explicitRig id = "" then none
            else some (id, batchRigFor resolveRig explicitRig id))) := by
      simp [runTaskBatch, taskBatchTypeErr_eq_none hval]
    rw [key]
    exact ⟨rfl, aggregateResult_iff _ _⟩

/-- Witness for C4 at concrete batch inputs. -/
theorem c4_batch_aggregate_error_policy_witness :
    ((runConvoyQueueByID true (.ok smplTracked) smplGetInfo smplRig smplEnq false false).2 =
        (convoyCandidates smplGetInfo smplRig false smplTracked).map
          (fun c => (c.id, c.rigName)) ∧
      (isErr (runConvoyQueueByID true (.ok smplTracked) smplGetInfo smplRig smplEnq
          false false).1 = true ↔
        ∀ c ∈ convoyCandidates smplGetInfo smplRig false smplTracked,
          smplEnq c.id c.rigName = false)) ∧
    ((runEpicQueueByID true (.ok smplChildren) smplRig smplEnq false false).2 =
        (epicCandidates smplRig false smplChildren).map (fun c => (c.id, c.rigName)) ∧
      (isErr (runEpicQueueByID true (.ok smplChildren) smplRig smplEnq
          false false).1 = true ↔
        ∀ c ∈ epicCandidates smplRig false smplChildren,
          smplEnq c.id c.rigName = false)) ∧
    ((runTaskBatch smplDetect smplRig smplEnq ["gt-1", "gt-2"] "").2 =
        ["gt-1", "gt-2"].filterMap (fun id =>
          if batchRigFor smplRig "" id = "" then none
          else some (id, batchRigFor smplRig "" id)) ∧
      (isErr (runTaskBatch smplDetect smplRig smplEnq ["gt-1", "gt-2"] "").1 = true ↔
        ∀ p ∈ ["gt-1", "gt-2"].filterMap (fun id =>
          if batchRigFor smplRig "" id = "" then none
          else some (id, batchRigFor smplRig "" id)),
          smplEnq p.1 p.2 = false)) :=
  ⟨(c4_batch_aggregate_error_policy smplGetInfo smplRig smplEnq smplTracked smplChildren
      smplDetect ["gt-1", "gt-2"] "" false).1 (by decide),
   (c4_batch_aggregate_error_policy smplGetInfo smplRig smplEnq smplTracked smplChildren
      smplDetect ["gt-1", "gt-2"] "" false).2.1 (by decide),
   (c4_batch_aggregate_error_policy smplGetInfo smplRig smplEnq smplTracked smplChildren
      smplDetect ["gt-1", "gt-2"] "" false).2.2 (by intro id hid; rfl)⟩

/-- C10: a multi-item task batch is type-validated before any write —
if any identifier after the first resolves to something other than a
task bead (a convoy, an epic, or an unresolvable identifier), the batch
command fails with no enqueue attempted, so no item in the batch gains
the queued label or a metadata block. -/
theorem c10_batch_type_validated_before_write
    (detect : String → Except String String) (resolveRig : String → String)
    (enqueueOK : String → String → Bool) (beadArgs : List String) (explicitRig : String)
    (h : ∃ id ∈ beadArgs.tail, detect id ≠ .ok "task") :
    isErr (runTaskBatch detect resolveRig enqueueOK beadArgs explicitRig).1 = true ∧
    (runTaskBatch detect resolveRig enqueueOK beadArgs explicitRig).2 = [] := by
  rcases taskBatchTypeErr_isSome h with ⟨e, he⟩
  simp [runTaskBatch, he, isErr]

/-- Witness for C10: a two-bead batch whose second entry detects as a
convoy. -/
theorem c10_batch_type_validated_before_write_witness :
    isErr (runTaskBatch smplDetectMixed smplRig smplEnq ["gt-1", "hq-cv-2"] "").1 = true ∧
    (runTaskBatch smplDetectMixed smplRig smplEnq ["gt-1", "hq-cv-2"] "").2 = [] :=
  c10_batch_type_validated_before_write smplDetectMixed smplRig smplEnq
    ["gt-1", "hq-cv-2"] "" ⟨"hq-cv-2", by decide, by simp [smplDetectMixed]⟩

/-- C6: the admission count is `min(max(0, maxWorkers − activeWorkers),
batchSize, readyCount)` when `maxWorkers ≠ 0`; when `maxWorkers = 0` the
capacity term is dropped, giving `min(batchSize, readyCount)`
independent of `activeWorkers`; and the concrete instance
`maxWorkers=5, activeWorkers=3, batchSize=4, readyCount=10` admits 2. -/
theorem c6_admission_count_formula :
    (∀ m a b r : Nat, m ≠ 0 →
      (admissionCount m a b r : Int) = min (min (max 0 ((m : Int) - a)) b) r) ∧
    (∀ a a' b r : Nat, admissionCount 0 a b r = min b r ∧
      admissionCount 0 a b r = admissionCount 0 a' b r) ∧
    admissionCount 5 3 4 10 = 2 := by
  refine ⟨?_, ?_, by decide⟩
  · intro m a b r hm
    simp only [admissionCount, if_neg hm]
    omega
  · intro a a' b r
    simp [admissionCount]

/-- Witness for C6 at concrete inputs. -/
theorem c6_admission_count_formula_witness :
    (admissionCount 7 2 9 4 : Int) = min (min (max 0 ((7 : Int) - 2)) 9) 4 ∧
    admissionCount 0 5 3 8 = min 3 8 := by
  refine ⟨c6_admission_count_formula.1 7 2 9 4 (by decide), ?_⟩
  exact (c6_admission_count_formula.2.1 5 0 3 8).1

/-- C9: redundant pause (already paused) and redundant resume (not
paused) return without writing the state file: the save flag is false
and every persisted field (paused, paused-by, pause timestamp,
last-dispatch telemetry) is unchanged. -/
theorem c9_redundant_pause_resume_write_free (st : QueueState) (actor now : String) :
    (st.paused = true → runQueuePause st actor now = (st, false)) ∧
    (st.paused = false → runQueueResume st = (st, false)) := by
  constructor
  · intro h; simp [runQueuePause, h]
  · intro h; simp [runQueueResume, h]

/-- Witness for C9 at concrete states. -/
theorem c9_redundant_pause_resume_write_free_witness :
    runQueuePause { paused := true, pausedBy := "A" } "B" "t1" =
      ({ paused := true, pausedBy := "A" }, false) ∧
    runQueueResume { paused := false, lastDispatchCount := 7 } =
      ({ paused := false, lastDispatchCount := 7 }, false) :=
  ⟨(c9_redundant_pause_resume_write_free { paused := true, pausedBy := "A" } "B" "t1").1 rfl,
   (c9_redundant_pause_resume_write_free { paused := false, lastDispatchCount := 7 } "x" "y").2 rfl⟩

/-- C7: when the global state is paused, an automatic (non-manual)
dispatch performs zero dispatches and leaves the state unchanged (in
particular it remains paused), while a manual dispatch proceeds exactly
as it would unpaused, regardless of the paused flag. -/
theorem c7_pause_gates_automatic_dispatch (st : QueueState)
    (m a b r : Nat) (now : String) :
    (st.paused = true →
      runQueueDispatch st false m a b r now = (0, st)) ∧
    (runQueueDispatch st true m a b r now =
      (admissionCount m a b r,
        { st with lastDispatchAt := now,
                  lastDispatchCount := admissionCount m a b r })) := by
  constructor
  · intro h; simp [runQueueDispatch, h]
  · simp [runQueueDispatch]

/-- Witness for C7 at a concrete paused state. -/
theorem c7_pause_gates_automatic_dispatch_witness :
    runQueueDispatch { paused := true, pausedBy := "A" } false 5 3 4 10 "t" =
      (0, { paused := true, pausedBy := "A" }) ∧
    runQueueDispatch { paused := true, pausedBy := "A" } true 5 3 4 10 "t" =
      (2, { paused := true, pausedBy := "A", lastDispatchAt := "t",
            lastDispatchCount := 2 }) :=
  ⟨(c7_pause_gates_automatic_dispatch { paused := true, pausedBy := "A" } 5 3 4 10 "t").1 rfl,
   (c7_pause_gates_automatic_dispatch { paused := true, pausedBy := "A" } 5 3 4 10 "t").2⟩

theorem splitLines_ne_nil (s : List Char) : splitLines s ≠ [] := by
  induction s with
  | nil => simp [splitLines]
  | cons c cs ih =>
    simp only [splitLines]
    split
    · simp
    · split <;> simp

theorem splitLines_append (a b : List Char) :
    splitLines (a ++ '\n' :: b) = splitLines a ++ splitLines b := by
  induction a with
  | nil => simp [splitLines]
  | cons c a ih =>
    by_cases hc : c = '\n'
    · subst hc
      have h1 : splitLines (('\n' :: a) ++ '\n' :: b) = [] :: splitLines (a ++ '\n' :: b) := by
        simp [splitLines]
      have h2 : splitLines ('\n' :: a) = [] :: splitLines a := by
        simp [splitLines]
      rw [h1, h2, ih]
      rfl
    · obtain ⟨h', t', hs⟩ := List.exists_cons_of_ne_nil (splitLines_ne_nil a)
      have h1 : splitLines ((c :: a) ++ '\n' :: b) =
          match splitLines (a ++ '\n' :: b) with
          | [] => [[c]]
          | l :: ls => (c :: l) :: ls := by
        simp [splitLines, hc]
      have h2 : splitLines (c :: a) = (c :: h') :: t' := by
        simp [splitLines, hc, hs]
      rw [h1, ih, hs, h2]
      rfl

theorem splitLines_of_no_newline (l : List Char) (h : '\n' ∉ l) :
    splitLines l = [l] := by
  induction l with
  | nil => rfl
  | cons c cs ih =>
    have hc : c ≠ '\n' := fun hcc => h (hcc ▸ List.mem_cons_self _ _)
    have hrest : '\n' ∉ cs := fun hm => h (List.mem_cons_of_mem _ hm)
    simp only [splitLines, if_neg hc, ih hrest]

theorem splitLines_joinLines (ls : List (List Char)) (hne : ls ≠ [])
    (hnl : ∀ l ∈ ls, '\n' ∉ l) : splitLines (joinLines ls) = ls := by
  induction ls with
  | nil => exact absurd rfl hne
  | cons l ls ih =>
    cases ls with
    | nil =>
      simp only [joinLines]
      exact splitLines_of_no_newline l (hnl l (List.mem_cons_self _ _))
    | cons l' ls' =>
      have : joinLines (l :: l' :: ls') = l ++ '\n' :: joinLines (l' :: ls') := rfl
      rw [this, splitLines_append,
        splitLines_of_no_newline l (hnl l (List.mem_cons_self _ _)),
        ih (by simp) (fun x hx => hnl x (List.mem_cons_of_mem _ hx))]
      rfl

theorem splitLines_struct (s : List Char) :
    ∃ h t, splitLines s = h :: t ∧ h <+: s ∧ ∀ l ∈ t, l <:+: s := by
  induction s with
  | nil => exact ⟨[], [], rfl, List.nil_prefix, by simp⟩
  | cons c cs ih =>
    obtain ⟨h', t', hs, hpf, hinf⟩ := ih
    by_cases hc : c = '\n'
    · subst hc
      refine ⟨[], splitLines cs, by simp [splitLines], List.nil_prefix, ?_⟩
      intro l hl
      rw [hs] at hl
      rcases List.mem_cons.mp hl with rfl | hl'
      · exact hpf.isInfix.trans (List.infix_cons (List.infix_refl _))
      · exact (hinf l hl').trans (List.infix_cons (List.infix_refl _))
    · refine ⟨c :: h', t', by simp [splitLines, if_neg hc, hs], ?_, ?_⟩
      · obtain ⟨t, ht⟩ := hpf
        exact ⟨t, by rw [List.cons_append, ht]⟩
      · intro l hl
        exact (hinf l hl).trans (List.infix_cons (List.infix_refl _))

theorem mem_splitLines_infix {s : List Char} {l : List Char}
    (hl : l ∈ splitLines s) : l <:+: s := by
  obtain ⟨h, t, hs, hpf, hinf⟩ := splitLines_struct s
  rw [hs] at hl
  rcases List.mem_cons.mp hl with rfl | hl'
  · exact hpf.isInfix
  · exact hinf l hl'

theorem firstOccSplit_some {pat s b a : List Char} (hp : pat ≠ [])
    (h : firstOccSplit pat s = some (b, a)) :
    s = b ++ pat ++ a ∧ ¬ pat <:+: b := by
  induction s generalizing b a with
  | nil =>
    unfold firstOccSplit at h
    cases pat with
    | nil => exact absurd rfl hp
    | cons p ps => simp [List.isPrefixOf] at h
  | cons c cs ih =>
    unfold firstOccSplit at h
    by_cases hpf : pat.isPrefixOf (c :: cs) = true
    · rw [if_pos hpf] at h
      simp only [Option.some.injEq, Prod.mk.injEq] at h
      obtain ⟨rfl, rfl⟩ := h
      obtain ⟨t, ht⟩ := List.isPrefixOf_iff_prefix.mp hpf
      constructor
      · rw [List.nil_append, ← ht, List.drop_left]
      · intro hinf
        exact hp (List.infix_nil.mp hinf)
    · rw [if_neg hpf] at h
      cases hfo : firstOccSplit pat cs with
      | none => rw [hfo] at h; cases h
      | some p =>
        rw [hfo] at h
        obtain ⟨b', a'⟩ := p
        simp only [Option.map_some', Option.some.injEq, Prod.mk.injEq] at h
        obtain ⟨rfl, rfl⟩ := h
        obtain ⟨hdec, hninf⟩ := ih hfo
        constructor
        · simp [hdec]
        · intro hinf
          rcases List.infix_cons_iff.mp hinf with hpre | hinf'
          · have hcc : c :: b' <+: c :: cs :=
              ⟨pat ++ a', by simp [hdec, List.append_assoc]⟩
            have : pat <+: c :: cs := hpre.trans hcc
            exact hpf (List.isPrefixOf_iff_prefix.mpr this)
          · exact hninf hinf'

theorem firstOccSplit_none_not_infix {pat s : List Char} (hp : pat ≠ [])
    (h : firstOccSplit pat s = none) : ¬ pat <:+: s := by
  induction s with
  | nil =>
    intro hinf
    exact hp (List.infix_nil.mp hinf)
  | cons c cs ih =>
    unfold firstOccSplit at h
    by_cases hpf : pat.isPrefixOf (c :: cs) = true
    · rw [if_pos hpf] at h; cases h
    · rw [if_neg hpf] at h
      cases hfo : firstOccSplit pat cs with
      | some p => rw [hfo] at h; simp at h
      | none =>
        intro hinf
        rcases List.infix_cons_iff.mp hinf with hpre | hinf'
        · exact hpf (List.isPrefixOf_iff_prefix.mpr hpre)
        · exact ih hfo hinf'

theorem pfx_of_append_short {pat A B : List Char} (h : pat <+: A ++ B)
    (hlen : pat.length ≤ A.length) : pat <+: A := by
  have h1 := List.prefix_iff_eq_take.mp h
  rw [List.take_append_eq_append_take, Nat.sub_eq_zero_of_le hlen,
    List.take_zero, List.append_nil] at h1
  rw [h1]
  exact List.take_prefix _ _

theorem firstOccSplit_cons (pat : List Char) (c : Char) (cs : List Char) :
    firstOccSplit pat (c :: cs) =
      if pat.isPrefixOf (c :: cs) = true then some ([], List.drop pat.length (c :: cs))
      else (firstOccSplit pat cs).map (fun p => (c :: p.1, p.2)) := rfl

theorem firstOccSplit_decomp (pat desc rest : List Char) (hp : pat ≠ [])
    (hnl : '\n' ∉ pat) (hni : ¬ pat <:+: desc) :
    firstOccSplit pat (desc ++ ('\n' :: (pat ++ rest))) = some (desc ++ ['\n'], rest) := by
  induction desc with
  | nil =>
    rw [List.nil_append, firstOccSplit_cons]
    have hpf : ¬ pat.isPrefixOf ('\n' :: (pat ++ rest)) = true := by
      intro hh
      obtain ⟨t, ht⟩ := List.isPrefixOf_iff_prefix.mp hh
      cases pat with
      | nil => exact hp rfl
      | cons p ps =>
        have hpne : p ≠ '\n' := fun hh2 => hnl (hh2 ▸ List.mem_cons_self _ _)
        rw [List.cons_append] at ht
        injection ht with h1 _
        exact hpne h1
    rw [if_neg hpf]
    have hrec : firstOccSplit pat (pat ++ rest) = some ([], rest) := by
      cases pat with
      | nil => exact absurd rfl hp
      | cons p ps =>
        rw [List.cons_append, firstOccSplit_cons]
        rw [if_pos (List.isPrefixOf_iff_prefix.mpr
          (by rw [← List.cons_append]; exact List.prefix_append _ _))]
        rw [← List.cons_append, List.drop_left]
    rw [hrec]
    rfl
  | cons c desc ih =>
    have hni' : ¬ pat <:+: desc := fun h => hni (List.infix_cons h)
    rw [List.cons_append, firstOccSplit_cons]
    have hnp : ¬ pat.isPrefixOf (c :: (desc ++ ('\n' :: (pat ++ rest)))) = true := by
      intro hh
      have hpre := List.isPrefixOf_iff_prefix.mp hh
      rw [← List.cons_append] at hpre
      by_cases hlen : pat.length ≤ (c :: desc).length
      · exact hni (pfx_of_append_short hpre hlen).isInfix
      · push_neg at hlen
        have hlen' : desc.length + 1 < pat.length := by simpa using hlen
        have hpre2 : (c :: desc) ++ ['\n'] <+: (c :: desc) ++ ('\n' :: (pat ++ rest)) :=
          ⟨pat ++ rest, by simp⟩
        have hsub : (c :: desc) ++ ['\n'] <+: pat :=
          List.prefix_of_prefix_length_le hpre2 hpre
            (by simp only [List.length_append, List.length_cons, List.length_nil]; omega)
        exact hnl (hsub.subset (by simp))
    rw [if_neg hnp, ih hni']
    rfl

theorem digitChar_facts : ∀ d, d < 10 →
    (Char.ofNat (48 + d)).toNat = 48 + d ∧ (Char.ofNat (48 + d)).isDigit = true ∧
    Char.ofNat (48 + d) ≠ '\n' := by
  decide

theorem isDigit_ne_newline {c : Char} (h : c.isDigit = true) : c ≠ '\n' := by
  intro hc
  subst hc
  exact absurd h (by decide)

theorem foldl_digit_shift (v : List Char) :
    ∀ a, v.foldl (fun a c => a * 10 + (c.toNat - 48)) a =
      a * 10 ^ v.length + digitsVal v := by
  induction v with
  | nil => intro a; simp [digitsVal]
  | cons c v ih =>
    intro a
    have h1 : digitsVal (c :: v) =
        (c.toNat - 48) * 10 ^ v.length + digitsVal v := by
      show (c :: v).foldl (fun a c => a * 10 + (c.toNat - 48)) 0 = _
      rw [List.foldl_cons, ih]
      simp
    rw [List.foldl_cons, ih, h1, List.length_cons, pow_succ]
    ring

theorem digitsVal_append_digit (v : List Char) (c : Char) :
    digitsVal (v ++ [c]) = digitsVal v * 10 + (c.toNat - 48) := by
  unfold digitsVal
  rw [List.foldl_append]
  rfl

theorem natToCharsAux_spec : ∀ fuel n, n < 10 ^ fuel →
    digitsVal (natToCharsAux fuel n) = n ∧
    (0 < fuel → natToCharsAux fuel n ≠ []) ∧
    ∀ c ∈ natToCharsAux fuel n, c.isDigit = true := by
  intro fuel
  induction fuel with
  | zero =>
    intro n hn
    have : n = 0 := by simpa using Nat.lt_one_iff.mp (by simpa using hn)
    subst this
    exact ⟨rfl, fun h => absurd h (by simp), by simp [natToCharsAux]⟩
  | succ fuel ih =>
    intro n hn
    by_cases h10 : n < 10
    · constructor
      · simp only [natToCharsAux, if_pos h10]
        unfold digitsVal
        simp [List.foldl_cons, (digitChar_facts n h10).1]
      · refine ⟨fun _ => by simp [natToCharsAux, if_pos h10], ?_⟩
        intro c hc
        simp only [natToCharsAux, if_pos h10, List.mem_singleton] at hc
        subst hc
        exact (digitChar_facts n h10).2.1
    · push_neg at h10
      have hdiv : n / 10 < 10 ^ fuel := by
        rw [Nat.div_lt_iff_lt_mul (by norm_num)]
        calc n < 10 ^ (fuel + 1) := hn
        _ = 10 ^ fuel * 10 := by ring
      obtain ⟨hval, hne, hdig⟩ := ih (n / 10) hdiv
      have hlt : ¬ n < 10 := by omega
      constructor
      · simp only [natToCharsAux, if_neg hlt]
        rw [digitsVal_append_digit, hval, (digitChar_facts (n % 10) (by omega)).1]
        omega
      · constructor
        · intro _
          simp [natToCharsAux, if_neg hlt]
        · intro c hc
          simp only [natToCharsAux, if_neg hlt, List.mem_append, List.mem_singleton] at hc
          rcases hc with hc | rfl
          · exact hdig c hc
          · exact (digitChar_facts (n % 10) (by omega)).2.1

theorem charsToNat_natToChars (n : Nat) : charsToNat (natToChars n) = n := by
  have hn : n < 10 ^ (n + 1) :=
    lt_of_lt_of_le (Nat.lt_pow_self (by norm_num) n)
      (Nat.pow_le_pow_right (by norm_num) (Nat.le_succ n))
  obtain ⟨hval, hne, hdig⟩ := natToCharsAux_spec (n + 1) n hn
  unfold charsToNat natToChars
  rw [if_pos ⟨hne (Nat.succ_pos n), List.all_eq_true.mpr (fun c hc => hdig c hc)⟩]
  exact hval

theorem natToChars_no_newline (n : Nat) : '\n' ∉ natToChars n := by
  have hn : n < 10 ^ (n + 1) :=
    lt_of_lt_of_le (Nat.lt_pow_self (by norm_num) n)
      (Nat.pow_le_pow_right (by norm_num) (Nat.le_succ n))
  obtain ⟨_, _, hdig⟩ := natToCharsAux_spec (n + 1) n hn
  intro hm
  exact isDigit_ne_newline (hdig _ hm) rfl

theorem boolChars_round (b : Bool) : decide (boolChars b = "true".data) = b := by
  cases b <;> decide

theorem boolChars_round_lit (b : Bool) :
    decide (boolChars b = ['t', 'r', 'u', 'e']) = b := by
  cases b <;> decide

theorem boolChars_no_newline (b : Bool) : '\n' ∉ boolChars b := by
  cases b <;> decide

theorem firstOccSplit_kv_aux (ks v : List Char) (hk : ':' ∉ ks) :
    firstOccSplit kvSepChars (ks ++ ':' :: ' ' :: v) = some (ks, v) := by
  induction ks with
  | nil =>
    rw [List.nil_append, firstOccSplit_cons]
    rw [if_pos (by simp [kvSepChars, List.isPrefixOf])]
    rfl
  | cons c ks ih =>
    have hc : c ≠ ':' := fun h => hk (h ▸ List.mem_cons_self _ _)
    rw [List.cons_append, firstOccSplit_cons]
    rw [if_neg ?_, ih (fun h => hk (List.mem_cons_of_mem _ h))]
    · rfl
    · simp only [kvSepChars, List.isPrefixOf, Bool.and_eq_true, beq_iff_eq]
      intro hcontra
      exact hc hcontra.1.symm

theorem dropUntilDelim_none (L : List (List Char)) (h : ∀ l ∈ L, l ≠ delimChars) :
    dropUntilDelim L = none := by
  induction L with
  | nil => rfl
  | cons l ls ih =>
    simp only [dropUntilDelim, if_neg (h l (List.mem_cons_self _ _))]
    exact ih (fun x hx => h x (List.mem_cons_of_mem _ hx))

theorem dropUntilDelim_append (A B : List (List Char)) (h : ∀ l ∈ A, l ≠ delimChars) :
    dropUntilDelim (A ++ delimChars :: B) = some B := by
  induction A with
  | nil => simp [dropUntilDelim]
  | cons l ls ih =>
    rw [List.cons_append]
    simp only [dropUntilDelim, if_neg (h l (List.mem_cons_self _ _))]
    exact ih (fun x hx => h x (List.mem_cons_of_mem _ hx))

theorem takeWhile_all {α : Type} (p : α → Bool) (L : List α)
    (h : ∀ l ∈ L, p l = true) : L.takeWhile p = L := by
  induction L with
  | nil => rfl
  | cons l ls ih =>
    rw [List.takeWhile_cons, if_pos (h l (List.mem_cons_self _ _))]
    rw [ih (fun x hx => h x (List.mem_cons_of_mem _ hx))]

theorem kvLine_no_newline (k : String) (v : List Char)
    (hk : '\n' ∉ k.data) (hv : '\n' ∉ v) : '\n' ∉ kvLine k v := by
  unfold kvLine
  simp only [List.mem_append, List.mem_cons, not_or]
  exact ⟨hk, by decide, by decide, hv⟩

theorem kvLine_ne_delim (k : String) (v : List Char) (h : k.data.headI ≠ '-') :
    kvLine k v ≠ delimChars := by
  intro he
  have hd : delimChars = '-' :: "--gt:queue:v1---".data := by decide
  unfold kvLine at he
  cases hk : k.data with
  | nil =>
    rw [hk, List.nil_append, hd] at he
    injection he with h1 _
    exact absurd h1 (by decide)
  | cons c ks =>
    rw [hk, List.cons_append, hd] at he
    injection he with h1 _
    rw [hk] at h
    exact h h1

theorem fieldLines_ne_nil (m : QueueMetadata) : fieldLines m ≠ [] := by
  simp [fieldLines]

theorem fieldLines_no_newline {m : QueueMetadata} (hm : CleanMeta m) :
    ∀ l ∈ fieldLines m, '\n' ∉ l := by
  obtain ⟨h1, h2, h3, h4, h5, h6, h7, h8, h9, h10, h11, h12⟩ := hm
  intro l hl
  simp only [fieldLines, List.mem_append, List.mem_cons, List.mem_map,
    List.not_mem_nil, or_false] at hl
  rcases hl with ((rfl | rfl | rfl) | ⟨v, hv, rfl⟩) | (rfl | rfl | rfl | rfl | rfl | rfl | rfl | rfl | rfl | rfl | rfl | rfl)
  · exact kvLine_no_newline _ _ (by decide) h1
  · exact kvLine_no_newline _ _ (by decide) h2
  · exact kvLine_no_newline _ _ (by decide) h3
  · exact kvLine_no_newline _ _ (by decide) (h4 v hv)
  · exact kvLine_no_newline _ _ (by decide) h5
  · exact kvLine_no_newline _ _ (by decide) h6
  · exact kvLine_no_newline _ _ (by decide) h7
  · exact kvLine_no_newline _ _ (by decide) h8
  · exact kvLine_no_newline _ _ (by decide) (boolChars_no_newline m.noMerge)
  · exact kvLine_no_newline _ _ (by decide) h9
  · exact kvLine_no_newline _ _ (by decide) h10
  · exact kvLine_no_newline _ _ (by decide) (boolChars_no_newline m.hookRawBead)
  · exact kvLine_no_newline _ _ (by decide) (boolChars_no_newline m.owned)
  · exact kvLine_no_newline _ _ (by decide) h11
  · exact kvLine_no_newline _ _ (by decide) (natToChars_no_newline m.dispatchFailures)
  · exact kvLine_no_newline _ _ (by decide) h12

theorem fieldLines_ne_delim (m : QueueMetadata) :
    ∀ l ∈ fieldLines m, l ≠ delimChars := by
  intro l hl
  simp only [fieldLines, List.mem_append, List.mem_cons, List.mem_map,
    List.not_mem_nil, or_false] at hl
  rcases hl with ((rfl | rfl | rfl) | ⟨v, hv, rfl⟩) | (rfl | rfl | rfl | rfl | rfl | rfl | rfl | rfl | rfl | rfl | rfl | rfl) <;>
    exact kvLine_ne_delim _ _ (by decide)

theorem pflTargetRig (acc : QueueMetadata) (v : List Char) :
    parseFieldLine acc (kvLine "target_rig" v) = { acc with targetRig := ⟨v⟩ } := by
  unfold parseFieldLine kvLine
  rw [firstOccSplit_kv_aux _ _ (by decide)]
  rfl

theorem pflFormula (acc : QueueMetadata) (v : List Char) :
    parseFieldLine acc (kvLine "formula" v) = { acc with formula := ⟨v⟩ } := by
  unfold parseFieldLine kvLine
  rw [firstOccSplit_kv_aux _ _ (by decide)]
  rfl

theorem pflArgs (acc : QueueMetadata) (v : List Char) :
    parseFieldLine acc (kvLine "args" v) = { acc with args := ⟨v⟩ } := by
  unfold parseFieldLine kvLine
  rw [firstOccSplit_kv_aux _ _ (by decide)]
  rfl

theorem pflVar (acc : QueueMetadata) (v : List Char) :
    parseFieldLine acc (kvLine "var" v) = { acc with vars := acc.vars ++ [⟨v⟩] } := by
  unfold parseFieldLine kvLine
  rw [firstOccSplit_kv_aux _ _ (by decide)]
  rfl

theorem pflEnqueuedAt (acc : QueueMetadata) (v : List Char) :
    parseFieldLine acc (kvLine "enqueued_at" v) = { acc with enqueuedAt := ⟨v⟩ } := by
  unfold parseFieldLine kvLine
  rw [firstOccSplit_kv_aux _ _ (by decide)]
  rfl

theorem pflMerge (acc : QueueMetadata) (v : List Char) :
    parseFieldLine acc (kvLine "merge" v) = { acc with merge := ⟨v⟩ } := by
  unfold parseFieldLine kvLine
  rw [firstOccSplit_kv_aux _ _ (by decide)]
  rfl

theorem pflConvoy (acc : QueueMetadata) (v : List Char) :
    parseFieldLine acc (kvLine "convoy" v) = { acc with convoy := ⟨v⟩ } := by
  unfold parseFieldLine kvLine
  rw [firstOccSplit_kv_aux _ _ (by decide)]
  rfl

theorem pflBaseBranch (acc : QueueMetadata) (v : List Char) :
    parseFieldLine acc (kvLine "base_branch" v) = { acc with baseBranch := ⟨v⟩ } := by
  unfold parseFieldLine kvLine
  rw [firstOccSplit_kv_aux _ _ (by decide)]
  rfl

theorem pflNoMerge (acc : QueueMetadata) (v : List Char) :
    parseFieldLine acc (kvLine "no_merge" v) =
      { acc with noMerge := decide (v = "true".data) } := by
  unfold parseFieldLine kvLine
  rw [firstOccSplit_kv_aux _ _ (by decide)]
  rfl

theorem pflAccount (acc : QueueMetadata) (v : List Char) :
    parseFieldLine acc (kvLine "account" v) = { acc with account := ⟨v⟩ } := by
  unfold parseFieldLine kvLine
  rw [firstOccSplit_kv_aux _ _ (by decide)]
  rfl

theorem pflAgent (acc : QueueMetadata) (v : List Char) :
    parseFieldLine acc (kvLine "agent" v) = { acc with agent := ⟨v⟩ } := by
  unfold parseFieldLine kvLine
  rw [firstOccSplit_kv_aux _ _ (by decide)]
  rfl

theorem pflHookRawBead (acc : QueueMetadata) (v : List Char) :
    parseFieldLine acc (kvLine "hook_raw_bead" v) =
      { acc with hookRawBead := decide (v = "true".data) } := by
  unfold parseFieldLine kvLine
  rw [firstOccSplit_kv_aux _ _ (by decide)]
  rfl

theorem pflOwned (acc : QueueMetadata) (v : List Char) :
    parseFieldLine acc (kvLine "owned" v) =
      { acc with owned := decide (v = "true".data) } := by
  unfold parseFieldLine kvLine
  rw [firstOccSplit_kv_aux _ _ (by decide)]
  rfl

theorem pflMode (acc : QueueMetadata) (v : List Char) :
    parseFieldLine acc (kvLine "mode" v) = { acc with mode := ⟨v⟩ } := by
  unfold parseFieldLine kvLine
  rw [firstOccSplit_kv_aux _ _ (by decide)]
  rfl

theorem pflDispatchFailures (acc : QueueMetadata) (v : List Char) :
    parseFieldLine acc (kvLine "dispatch_failures" v) =
      { acc with dispatchFailures := charsToNat v } := by
  unfold parseFieldLine kvLine
  rw [firstOccSplit_kv_aux _ _ (by decide)]
  rfl

theorem pflLastFailure (acc : QueueMetadata) (v : List Char) :
    parseFieldLine acc (kvLine "last_failure" v) = { acc with lastFailure := ⟨v⟩ } := by
  unfold parseFieldLine kvLine
  rw [firstOccSplit_kv_aux _ _ (by decide)]
  rfl

theorem foldl_varLines (vs : List String) :
    ∀ acc, (vs.map (fun v => kvLine "var" v.data)).foldl parseFieldLine acc =
      { acc with vars := acc.vars ++ vs } := by
  induction vs with
  | nil => intro acc; simp
  | cons v vs ih =>
    intro acc
    rw [List.map_cons, List.foldl_cons, pflVar, ih]
    simp

theorem foldl_fieldLines (m : QueueMetadata) :
    (fieldLines m).foldl parseFieldLine {} = m := by
  obtain ⟨tR, fm, ar, vs, ea, mg, cv, bb, nm, ac, ag, hrb, ow, md, df, lf⟩ := m
  simp only [fieldLines]
  simp only [List.foldl_append, List.foldl_cons, List.foldl_nil]
  rw [pflTargetRig, pflFormula, pflArgs, foldl_varLines, pflEnqueuedAt, pflMerge,
    pflConvoy, pflBaseBranch, pflNoMerge, pflAccount, pflAgent, pflHookRawBead,
    pflOwned, pflMode, pflDispatchFailures, pflLastFailure]
  simp [boolChars_round, boolChars_round_lit, charsToNat_natToChars]

theorem splitLines_format (desc : String) (m : QueueMetadata) (hm : CleanMeta m) :
    splitLines (FormatQueueMetadata desc m).data =
      splitLines desc.data ++ delimChars :: fieldLines m := by
  show splitLines (desc.data ++ ('\n' :: (delimChars ++ ('\n' :: joinLines (fieldLines m))))) = _
  rw [splitLines_append, splitLines_append,
    splitLines_of_no_newline delimChars (by decide),
    splitLines_joinLines (fieldLines m) (fieldLines_ne_nil m) (fieldLines_no_newline hm)]
  rfl

theorem parse_format (desc : String) (m : QueueMetadata) (hm : CleanMeta m)
    (hd : ¬ delimChars <:+: desc.data) :
    ParseQueueMetadata (FormatQueueMetadata desc m) = some m := by
  have hne : ∀ l ∈ splitLines desc.data, l ≠ delimChars := by
    intro l hl hle
    exact hd (hle ▸ mem_splitLines_infix hl)
  unfold ParseQueueMetadata
  rw [splitLines_format desc m hm, dropUntilDelim_append _ _ hne]
  show some (((fieldLines m).takeWhile (fun l => decide (l ≠ delimChars))).foldl
    parseFieldLine {}) = some m
  rw [takeWhile_all _ _ (fun l hl => decide_eq_true (fieldLines_ne_delim m l hl)),
    foldl_fieldLines]

theorem strip_format (desc : String) (m : QueueMetadata)
    (hd : ¬ delimChars <:+: desc.data) :
    StripQueueMetadata (FormatQueueMetadata desc m) = ⟨desc.data ++ ['\n']⟩ := by
  unfold StripQueueMetadata
  have hdec := firstOccSplit_decomp delimChars desc.data
    ('\n' :: joinLines (fieldLines m)) (by decide) (by decide) hd
  rw [show (FormatQueueMetadata desc m).data =
    desc.data ++ ('\n' :: (delimChars ++ ('\n' :: joinLines (fieldLines m)))) from rfl]
  rw [hdec]

theorem parse_strip_format (desc : String) (m : QueueMetadata)
    (hd : ¬ delimChars <:+: desc.data) :
    ParseQueueMetadata (StripQueueMetadata (FormatQueueMetadata desc m)) = none := by
  rw [strip_format desc m hd]
  unfold ParseQueueMetadata
  rw [show (⟨desc.data ++ ['\n']⟩ : String).data =
    desc.data ++ ('\n' :: ([] : List Char)) from rfl]
  rw [splitLines_append, dropUntilDelim_none]
  intro l hl
  rcases List.mem_append.mp hl with h1 | h2
  · intro he
    exact hd (he ▸ mem_splitLines_infix h1)
  · simp only [splitLines, List.mem_singleton] at h2
    subst h2
    decide

/-- C5: for every metadata record whose values respect the wire format
(no newlines) and every description not containing the delimiter,
parsing the formatted text recovers the record exactly — including
zero-valued fields and repeated variables — and parsing the text
obtained by stripping the formatted block yields nothing. -/
theorem c5_metadata_codec_round_trip (m : QueueMetadata) (desc : String)
    (hm : CleanMeta m) (hd : ¬ delimChars <:+: desc.data) :
    ParseQueueMetadata (FormatQueueMetadata desc m) = some m ∧
    ParseQueueMetadata (StripQueueMetadata (FormatQueueMetadata desc m)) = none :=
  ⟨parse_format desc m hm hd, parse_strip_format desc m hd⟩

/-- Witness for C5 at a concrete record and description. -/
theorem c5_metadata_codec_round_trip_witness :
    ParseQueueMetadata (FormatQueueMetadata smplDesc smplMeta) = some smplMeta ∧
    ParseQueueMetadata (StripQueueMetadata (FormatQueueMetadata smplDesc smplMeta)) = none :=
  c5_metadata_codec_round_trip smplMeta smplDesc (by unfold CleanMeta; decide) (by decide)

theorem strip_no_delim (desc : String) :
    ¬ delimChars <:+: (StripQueueMetadata desc).data := by
  unfold StripQueueMetadata
  cases hfo : firstOccSplit delimChars desc.data with
  | none => exact firstOccSplit_none_not_infix (by decide) hfo
  | some p =>
    obtain ⟨b, a⟩ := p
    exact (firstOccSplit_some (by decide) hfo).2

theorem countP_delim_zero (L : List (List Char)) (h : ∀ l ∈ L, l ≠ delimChars) :
    L.countP (fun l => decide (l = delimChars)) = 0 :=
  List.countP_eq_zero.mpr (fun l hl => by simpa using h l hl)

theorem metaBlockCount_format (desc : String) (m : QueueMetadata)
    (hm : CleanMeta m) (hd : ¬ delimChars <:+: desc.data) :
    metaBlockCount (FormatQueueMetadata desc m) = 1 := by
  unfold metaBlockCount
  rw [splitLines_format desc m hm, List.countP_append, List.countP_cons]
  rw [countP_delim_zero _ (fun l hl hle => hd (hle ▸ mem_splitLines_infix hl))]
  rw [countP_delim_zero _ (fieldLines_ne_delim m)]
  simp

theorem mem_addLabel (l : String) (ls : List String) : l ∈ addLabel l ls := by
  unfold addLabel
  split
  · assumption
  · simp

theorem count_addLabel_of_not_mem {l : String} {ls : List String} (h : l ∉ ls) :
    (addLabel l ls).count l = 1 := by
  unfold addLabel
  rw [if_neg h, List.count_append]
  rw [List.count_eq_zero.mpr h]
  simp

/-- C8: enqueue is idempotent — starting from an open bead not yet
queued, a successful enqueue (guards passing, no force) yields a bead
carrying exactly one `gt:queued` label and exactly one metadata block in
its description, and a second enqueue with the same arguments succeeds
as a no-op, changing nothing. -/
theorem c8_enqueue_idempotent (b0 : Bead) (meta : QueueMetadata) (b1 : Bead)
    (hm : CleanMeta meta) (hopen : b0.status = "open")
    (hnq : LabelQueued ∉ b0.labels)
    (h1 : enqueueBead true true b0 meta false = .ok b1) :
    enqueueBead true true b1 meta false = .ok b1 ∧
    b1.labels.count LabelQueued = 1 ∧
    metaBlockCount b1.description = 1 := by
  have hb1 : b1 = { b0 with
      description := FormatQueueMetadata (StripQueueMetadata b0.description) meta,
      labels := addLabel LabelQueued b0.labels } := by
    unfold enqueueBead at h1
    rw [if_neg (by simp)] at h1
    rw [if_neg (by intro hcon; exact hnq hcon.2.1)] at h1
    rw [if_neg (by rw [hopen]; simp)] at h1
    rw [if_neg (by simp)] at h1
    exact ((Except.ok.injEq _ _).mp h1).symm
  subst hb1
  refine ⟨?_, count_addLabel_of_not_mem hnq, ?_⟩
  · unfold enqueueBead
    rw [if_neg (by simp)]
    rw [if_pos ⟨hopen, mem_addLabel _ _, rfl⟩]
  · exact metaBlockCount_format _ meta hm (strip_no_delim b0.description)

/-- Witness for C8 at a concrete bead and metadata record. -/
theorem c8_enqueue_idempotent_witness :
    enqueueBead true true smplBead1 smplMeta false = .ok smplBead1 ∧
    smplBead1.labels.count LabelQueued = 1 ∧
    metaBlockCount smplBead1.description = 1 :=
  c8_enqueue_idempotent smplBead0 smplMeta smplBead1
    (by unfold CleanMeta; decide) (by decide) (by decide) rfl

end Gastown
